/-
Verification of the distributed mesh / sharding coordination layer of
`dtensor-keras-bert.py` (dtensor-gcp-examples).

The Python program is shallowly embedded: tensors whose only relevant
structure is their axis-0 decomposition are `List α` (a list of rows),
a dtensor mesh as seen from one client is the global batch-dimension size
together with the client's local device coordinates, and the collective
`unique_across_clients` round is modelled on the global list of the values
submitted by the clients (one per client, in client order).
-/
import Mathlib

namespace DTensorBert

/-! ## Data model -/

/-- The coordinate vector of one local device in the 2-D mesh, as returned by
`mesh.local_device_locations()`: the entry for `BATCH_DIM` and the entry for
`MODEL_DIM`. -/
structure DeviceLocation where
  batch : Nat
  modelDim : Nat
deriving DecidableEq, Inhabited

/-- A dtensor mesh as seen from one client process: `mesh.dim_size(BATCH_DIM)`
(global) and `mesh.local_device_locations()` (the coordinates of the devices
this client owns, in the mesh's device iteration order). -/
structure LocalMesh where
  batchDimSize : Nat
  localDevices : List DeviceLocation
deriving DecidableEq, Inhabited

/-- Module constant `batch_size = 32`. -/
def batchSize : Nat := 32

/-- Module constant `sequence_length = 10`. -/
def sequenceLength : Nat := 10

/-- Module constant `vocab_size = 100`. -/
def vocabSize : Nat := 100

/-- Module constant `num_classes = 2`. -/
def numClasses : Nat := 2

/-- Module constant `mesh_dims = [("batch", 4), ("model", 2)]`. -/
def meshDims : List (String × Nat) := [("batch", 4), ("model", 2)]

/-! ## Sharding Packer (`shard_data`) -/

/-- The Python set `replicas`: the distinct batch-dimension coordinates among
this client's local devices (built identically in `get_pipeline_params` and in
`shard_data`). -/
def localReplicas (m : LocalMesh) : Finset Nat :=
  (m.localDevices.map DeviceLocation.batch).toFinset

/-- The list `sorted(replicas)` in `shard_data`: the distinct local batch coordinates in
ascending order. -/
def sortedReplicas (m : LocalMesh) : List Nat :=
  (localReplicas m).sort (· ≤ ·)

/-- Embedding of `tf.split(tensor, n, axis=0)` with all pieces of size `q`: the first `n`
chunks of `q` consecutive rows. (`tf.split` itself fixes `q = length / n`;
the caller below passes that quotient.) -/
def tfSplit (q : Nat) {α : Type} : Nat → List α → List (List α)
  | 0, _ => []
  | n + 1, xs => xs.take q :: tfSplit q n (xs.drop q)

/-- The list `slices = tf.split(tensor, len(replicas), axis=0)` in `shard_data`. -/
def shardSlices (m : LocalMesh) {α : Type} (xs : List α) : List (List α) :=
  tfSplit (xs.length / (localReplicas m).card) (localReplicas m).card xs

/-- Embedding of `shard_data(tensor)`: split the client-local tensor into one equal slice
per distinct local batch coordinate, then give every local device (in device
iteration order) the slice of its own batch coordinate
(`replica_to_slice[replica_id]` is the rank of the coordinate in
`sorted(replicas)`).  The result is the ordered list of per-device components
passed to `dtensor.pack` with the batch-sharded layout; `none` models the
fatal shape error `tf.split` raises when the axis-0 size is not evenly
divisible by the number of slices (or there is no slice at all). -/
def shardData (m : LocalMesh) {α : Type} (xs : List α) : Option (List (List α)) :=
  if (localReplicas m).card ≠ 0 ∧ (localReplicas m).card ∣ xs.length then
    some (m.localDevices.map (fun dev =>
      (shardSlices m xs).getD ((sortedReplicas m).indexOf dev.batch) []))
  else none

/-- Axis-0 extent of the global shape of the DTensor packed from `comps` with
the batch-sharded layout: the per-device component extent times the number of
shards along the batch mesh dimension. -/
def packedGlobalRows (m : LocalMesh) {α : Type} (comps : List (List α)) : Nat :=
  (comps.headD []).length * m.batchDimSize

/-- The component a given batch-dimension coordinate holds in a packed result:
the component of the first local device having that coordinate. -/
def componentForReplica (m : LocalMesh) {α : Type} (comps : List (List α)) (r : Nat) :
    List α :=
  (((m.localDevices.zip comps).find? (fun p => p.1.batch == r)).map Prod.snd).getD []

/-- Re-assembly of a packed DTensor's per-device components along the batch
dimension: concatenate the distinct-replica components in sorted-coordinate
order. -/
def reassemble (m : LocalMesh) {α : Type} (comps : List (List α)) : List α :=
  ((sortedReplicas m).map (componentForReplica m comps)).flatten

/-! ## Basic lemmas about the split -/

theorem tfSplit_length (q : Nat) {α : Type} :
    ∀ (n : Nat) (xs : List α), (tfSplit q n xs).length = n := by
  intro n
  induction n with
  | zero => intro xs; rfl
  | succ n ih => intro xs; simp [tfSplit, ih]

theorem tfSplit_getD (q : Nat) {α : Type} :
    ∀ (n k : Nat) (xs : List α), k < n →
      (tfSplit q n xs).getD k [] = (xs.drop (k * q)).take q := by
  intro n
  induction n with
  | zero => intro k xs hk; omega
  | succ n ih =>
    intro k xs hk
    cases k with
    | zero => simp [tfSplit]
    | succ k =>
      have hk' : k < n := by omega
      simp only [tfSplit, List.getD_cons_succ]
      rw [ih k _ hk', List.drop_drop]
      have : q + k * q = (k + 1) * q := by ring
      rw [this]

theorem tfSplit_flatten (q : Nat) {α : Type} :
    ∀ (n : Nat) (xs : List α), xs.length = n * q → (tfSplit q n xs).flatten = xs := by
  intro n
  induction n with
  | zero =>
    intro xs h
    have : xs = [] := List.eq_nil_of_length_eq_zero (by simpa using h)
    simp [this, tfSplit]
  | succ n ih =>
    intro xs h
    have hq : q ≤ xs.length := by
      rw [h]; calc q = 1 * q := by ring
        _ ≤ (n + 1) * q := Nat.mul_le_mul_right q (by omega)
    have hd : (xs.drop q).length = n * q := by
      rw [List.length_drop, h]; ring_nf; omega
    simp [tfSplit, ih (xs.drop q) hd]

theorem tfSplit_getD_length (q : Nat) {α : Type} (n k : Nat) (xs : List α)
    (hk : k < n) (hlen : n * q ≤ xs.length) :
    ((tfSplit q n xs).getD k []).length = q := by
  rw [tfSplit_getD q n k xs hk]
  rw [List.length_take, List.length_drop]
  have : (k + 1) * q ≤ n * q := Nat.mul_le_mul_right q (by omega)
  have : k * q + q ≤ xs.length := by
    calc k * q + q = (k + 1) * q := by ring
      _ ≤ n * q := this
      _ ≤ xs.length := hlen
  omega

theorem mem_localReplicas {m : LocalMesh} {r : Nat} :
    r ∈ localReplicas m ↔ ∃ dev ∈ m.localDevices, dev.batch = r := by
  simp [localReplicas]

theorem localReplicas_card_ne_zero {m : LocalMesh} (h : m.localDevices ≠ []) :
    (localReplicas m).card ≠ 0 := by
  rcases List.exists_mem_of_ne_nil _ h with ⟨dev, hdev⟩
  have : dev.batch ∈ localReplicas m := mem_localReplicas.mpr ⟨dev, hdev, rfl⟩
  exact Finset.card_ne_zero_of_mem this

theorem sortedReplicas_nodup (m : LocalMesh) : (sortedReplicas m).Nodup :=
  Finset.sort_nodup _ _

theorem sortedReplicas_length (m : LocalMesh) :
    (sortedReplicas m).length = (localReplicas m).card :=
  Finset.length_sort _

theorem mem_sortedReplicas {m : LocalMesh} {r : Nat} :
    r ∈ sortedReplicas m ↔ r ∈ localReplicas m :=
  Finset.mem_sort _

/-! ## Cross-client consensus (`unique_across_clients`) -/

/-- Embedding of `np.sort` on a 1-D integer array: the same values in ascending order. -/
def npSort (l : List Nat) : List Nat :=
  Multiset.sort (· ≤ ·) (l : Multiset Nat)

/-- Embedding of `np.unique` on a 1-D integer array: the distinct values in ascending
order. -/
def npUnique (l : List Nat) : List Nat :=
  Multiset.sort (· ≤ ·) (l.dedup : Multiset Nat)

/-- Embedding of `dtensor.pack([tf.constant([x], tf.int32)], layout=Layout(["clients"]))`
executed by every client in one collective round: the per-client components of
the client-sharded tensor, one singleton component per client, in client
order. `xs` is the global list of submitted values. -/
def packClients (xs : List Nat) : List (List Nat) := xs.map (fun x => [x])

/-- Embedding of `dtensor.relayout(packed, Layout([UNSHARDED]))`: the fully replicated
value every client locally receives — the concatenation of all components. -/
def relayoutReplicated (comps : List (List Nat)) : List Nat := comps.flatten

/-- The replicated value as observed by client `i` (defined only for actual
clients `i < num_clients`; every client holds the full global tensor). -/
def clientView (xs : List Nat) (i : Nat) : Option (List Nat) :=
  if i < xs.length then some (relayoutReplicated (packClients xs)) else none

/-- Result of `unique_across_clients` as computed locally by client `i` in a round where
the clients submitted `xs` (client `j` submitted `xs[j]`):
`np.sort(np.unique(replicated.numpy()))` on the client's replicated view. -/
def uniqueAcrossClientsAt (xs : List Nat) (i : Nat) : Option (List Nat) :=
  (clientView xs i).map (fun v => npSort (npUnique v))

/-- The common result of a `unique_across_clients` round with submissions
`xs`. -/
def uniqueAcrossClients (xs : List Nat) : List Nat :=
  npSort (npUnique (relayoutReplicated (packClients xs)))

/-! ## Input Partitioner (`get_pipeline_params`) -/

/-- The value returned by `get_pipeline_params`. -/
structure PipelineParams where
  inputPipelineId : Nat
  numInputPipelines : Nat
  numLocalReplicasInSync : Nat
deriving DecidableEq, Inhabited

/-- Embedding of `first_replica = min(replicas)` in `get_pipeline_params`; `none` models
the `ValueError` Python's `min` raises on an empty set (a client owning no
local device). -/
def firstReplica (m : LocalMesh) : Option Nat :=
  if h : (localReplicas m).Nonempty then some ((localReplicas m).min' h) else none

/-- One training run, multi-client: entry `i` is the mesh as seen by client
`i`. -/
abbrev Run := List LocalMesh

/-- The values the clients submit to the `unique_across_clients` round inside
`get_pipeline_params`: each client's `first_replica`, in client order (clients
without local devices would abort before submitting). -/
def runRepresentatives (run : Run) : List Nat :=
  run.filterMap firstReplica

/-- Embedding of `get_pipeline_params` at client `i` of the run: `replicas` is the set of
local batch coordinates, `first_replica` its minimum, `first_replicas` the
consensus result over all clients, `input_pipeline_id` the index
(`list.index`) of `first_replica` in it, `num_input_pipelines` its length and
`num_local_replicas_in_sync` the number of local replicas. -/
def getPipelineParams (run : Run) (i : Nat) : Option PipelineParams := do
  let m ← run[i]?
  let fr ← firstReplica m
  let frs := uniqueAcrossClients (runRepresentatives run)
  pure ⟨frs.indexOf fr, frs.length, (localReplicas m).card⟩

/-- Embedding of `client_local_batch_size = batch_size // mesh.dim_size(BATCH_DIM) *
num_local_replicas_in_sync` in `get_dataset`. -/
def clientLocalBatchSize (m : LocalMesh) (localReplicaCount : Nat) : Nat :=
  batchSize / m.batchDimSize * localReplicaCount

/-- One batch of `from_tensor_slices(rows).repeat().batch(B)`: the `k`-th
batch, `B` rows drawn cyclically from `rows`. -/
def repeatBatch (rows : List Nat) (B k : Nat) : List Nat :=
  (List.range B).map (fun j => rows.getD ((k * B + j) % rows.length) 0)

/-! ## Spec-side definitions (§4.3 `derive_partition`, §4.2
`all_distinct_values`), written from the specification's words for the
refinement claim. -/

/-- Spec §4.3 step 1: the set of distinct coordinate values along the batch
dimension among this client's locally-owned devices. -/
def specBatchReplicas (m : LocalMesh) : Finset Nat :=
  (m.localDevices.map DeviceLocation.batch).toFinset

/-- Spec §4.3 step 2: the minimum such value, the client's canonical
representative (undefined for a client owning no device). -/
def specRepresentative (m : LocalMesh) : Option Nat :=
  if h : (specBatchReplicas m).Nonempty then some ((specBatchReplicas m).min' h)
  else none

/-- Spec §4.2 `all_distinct_values`: the sorted set of every distinct value
submitted mesh-wide. -/
def specAllDistinctValues (xs : List Nat) : List Nat :=
  xs.toFinset.sort (· ≤ ·)

/-- Spec §4.3 steps 3-6: `partition_id` is the index of this client's
representative within the sorted set returned by consensus over all clients'
representatives, `partition_count` the size of that set, and
`local_replica_count` the number of distinct batch coordinates the client
owns. -/
def specDerivePartition (run : Run) (i : Nat) : Option PipelineParams := do
  let m ← run[i]?
  let rep ← specRepresentative m
  let reps := specAllDistinctValues (run.filterMap specRepresentative)
  pure ⟨reps.indexOf rep, reps.length, (specBatchReplicas m).card⟩

/-! ## Distributed Training Loop (`train_model`, `rprint`) -/

/-- The `rprint` gate: an event is emitted only by the leader client
(`dtensor.client_id() == 0`). -/
def rprint {α : Type} (clientId : Nat) (x : α) : List α :=
  if clientId = 0 then [x] else []

/-- The observable outcome of `train_model`: the returned `train_losses`, the
per-epoch loss reports actually printed (epoch number and reported value),
and the number of `train_step` executions. -/
structure TrainResult where
  losses : List ℚ
  reports : List (Nat × ℚ)
  stepsRun : Nat
deriving DecidableEq, Inhabited

/-- The inner `for _ in range(steps_per_epoch)` loop: starting after
`stepsDone` executed steps, run `n` further steps, where the `s`-th executed
step of the run incurs loss `stepLoss s` (the losses produced by
`train_step` on the successive batches are abstracted as this sequence).
Returns the accumulated `total_loss` and the new executed-step count. -/
def epochLoop (stepLoss : Nat → ℚ) : Nat → Nat → ℚ × Nat
  | stepsDone, 0 => (0, stepsDone)
  | stepsDone, n + 1 =>
    let loss := stepLoss stepsDone
    let rest := epochLoop stepLoss (stepsDone + 1) n
    (loss + rest.1, rest.2)

/-- Embedding of `train_model`: for each epoch, run `steps_per_epoch` training steps
accumulating `total_loss`, compute
`train_loss = tf.reduce_mean(total_loss / steps_per_epoch)` (the mean of a
scalar is the scalar itself), report it through `rprint`, and append it to
`train_losses`, which is returned. -/
def trainModel (clientId : Nat) (stepLoss : Nat → ℚ) (stepsPerEpoch numEpochs : Nat) :
    TrainResult :=
  (List.range numEpochs).foldl
    (fun st e =>
      let step := epochLoop stepLoss st.stepsRun stepsPerEpoch
      let trainLoss := step.1 / (stepsPerEpoch : ℚ)
      ⟨st.losses ++ [trainLoss],
       st.reports ++ rprint clientId (e, trainLoss),
       step.2⟩)
    ⟨[], [], 0⟩

/-! ## The `client_mesh` process-wide singleton -/

/-- The argument record of `dtensor.create_distributed_mesh` for the auxiliary
client mesh. -/
structure ClientMeshSpec where
  dims : List (String × Nat)
  deviceType : String
  numGlobalDevices : Nat
deriving DecidableEq, Inhabited

/-- Embedding of `dtensor.create_distributed_mesh([("clients", num_clients)],
device_type="CPU", num_global_devices=num_clients)`. -/
def createClientMesh (numClients : Nat) : ClientMeshSpec :=
  ⟨[("clients", numClients)], "CPU", numClients⟩

/-- The `client_mesh` module-global handling at the top of each
`unique_across_clients` call: build the mesh if the global is still `None`,
otherwise reuse it. Returns the mesh used by this call, the new state of the
global, and whether this call constructed a mesh. -/
def clientMeshOnCall (numClients : Nat) (st : Option ClientMeshSpec) :
    ClientMeshSpec × Option ClientMeshSpec × Bool :=
  match st with
  | none => (createClientMesh numClients, some (createClientMesh numClients), true)
  | some m => (m, some m, false)

/-- The state of the `client_mesh` global and the total number of mesh
constructions after `k` calls to `unique_across_clients` in one process
(the global starts out `None`). -/
def clientMeshAfterCalls (numClients : Nat) : Nat → Option ClientMeshSpec × Nat
  | 0 => (none, 0)
  | k + 1 =>
    let prev := clientMeshAfterCalls numClients k
    let call := clientMeshOnCall numClients prev.1
    (call.2.1, prev.2 + (if call.2.2 then 1 else 0))

/-! ## Checkpoint Service -/

/-- Modelled from the spec: the Checkpoint Service of §4.7 and the checkpoint
storage boundary of §6 (`save(root, mesh, uri) -> uri`; `restore(uri)`); the
implementation behind `dtensor.DTensorCheckpoint.save`/`.restore` is external
to the repository. The store maps a realized path (the token) to the mesh
topology and the distributed parameter values written there. -/
structure CheckpointStore (α : Type) where
  entries : List (String × (List (String × Nat) × α))

/-- Modelled from the spec: `save(model, mesh, path) -> token` — persist the
model's parameter values keyed by the mesh topology, returning the realized
path as the restore token. -/
def checkpointSave {α : Type} (store : CheckpointStore α)
    (meshTopology : List (String × Nat)) (params : α) (path : String) :
    String × CheckpointStore α :=
  (path, ⟨(path, (meshTopology, params)) :: store.entries⟩)

/-- Modelled from the spec: `restore(token)` — look the token up and yield the
stored parameter values, provided the mesh being restored into has the same
topology as the one used at save time (restoring into a different topology
must fail fast). -/
def checkpointRestore {α : Type} (store : CheckpointStore α)
    (meshTopology : List (String × Nat)) (token : String) : Option α :=
  match store.entries.find? (fun e => e.1 == token) with
  | none => none
  | some e => if e.2.1 = meshTopology then some e.2.2 else none

/-! ## Lemmas about the consensus primitive -/

theorem relayout_pack (xs : List Nat) : relayoutReplicated (packClients xs) = xs := by
  induction xs with
  | nil => rfl
  | cons x xs ih =>
    simp only [relayoutReplicated, packClients, List.map_cons, List.flatten_cons] at ih ⊢
    simp [ih]

theorem npSort_perm (l : List Nat) : (npSort l).Perm l :=
  Multiset.coe_eq_coe.mp (Multiset.sort_eq _ _)

theorem npSort_sorted (l : List Nat) : List.Sorted (· ≤ ·) (npSort l) :=
  Multiset.sort_sorted _ _

theorem npUnique_perm_dedup (l : List Nat) : (npUnique l).Perm l.dedup :=
  Multiset.coe_eq_coe.mp (Multiset.sort_eq _ _)

theorem npUnique_sorted (l : List Nat) : List.Sorted (· ≤ ·) (npUnique l) :=
  Multiset.sort_sorted _ _

theorem npUnique_nodup (l : List Nat) : (npUnique l).Nodup :=
  (npUnique_perm_dedup l).nodup_iff.mpr l.nodup_dedup

theorem npSort_eq_of_sorted {l : List Nat} (h : List.Sorted (· ≤ ·) l) : npSort l = l :=
  List.eq_of_perm_of_sorted (npSort_perm l) (npSort_sorted l) h

theorem uniqueAcrossClients_eq_npUnique (xs : List Nat) :
    uniqueAcrossClients xs = npUnique xs := by
  unfold uniqueAcrossClients
  rw [relayout_pack, npSort_eq_of_sorted (npUnique_sorted xs)]

theorem uniqueAcrossClients_sorted (xs : List Nat) :
    List.Sorted (· ≤ ·) (uniqueAcrossClients xs) := by
  rw [uniqueAcrossClients_eq_npUnique]; exact npUnique_sorted xs

theorem uniqueAcrossClients_nodup (xs : List Nat) : (uniqueAcrossClients xs).Nodup := by
  rw [uniqueAcrossClients_eq_npUnique]; exact npUnique_nodup xs

theorem mem_uniqueAcrossClients {xs : List Nat} {v : Nat} :
    v ∈ uniqueAcrossClients xs ↔ v ∈ xs := by
  rw [uniqueAcrossClients_eq_npUnique, (npUnique_perm_dedup xs).mem_iff]
  exact List.mem_dedup

theorem uniqueAcrossClients_perm_of_nodup {xs : List Nat} (h : xs.Nodup) :
    (uniqueAcrossClients xs).Perm xs := by
  rw [uniqueAcrossClients_eq_npUnique]
  have := npUnique_perm_dedup xs
  rwa [List.dedup_eq_self.mpr h] at this

theorem uniqueAcrossClients_eq_specAllDistinctValues (xs : List Nat) :
    uniqueAcrossClients xs = specAllDistinctValues xs := by
  apply List.eq_of_perm_of_sorted _ (uniqueAcrossClients_sorted xs)
    (Finset.sort_sorted _ _)
  apply List.perm_of_nodup_nodup_toFinset_eq (uniqueAcrossClients_nodup xs)
    (Finset.sort_nodup _ _)
  rw [Finset.sort_toFinset]
  ext v
  simp [mem_uniqueAcrossClients]

/-! ## Lemmas about `get_pipeline_params` -/

theorem filterMap_eq_map_of_isSome {α β : Type} (f : α → Option β) (dflt : β) :
    ∀ (l : List α), (∀ a ∈ l, (f a).isSome) →
      l.filterMap f = l.map (fun a => (f a).getD dflt) := by
  intro l
  induction l with
  | nil => intro _; rfl
  | cons a l ih =>
    intro h
    rcases Option.isSome_iff_exists.mp (h a (by simp)) with ⟨v, hv⟩
    simp [List.filterMap_cons, hv, ih (fun b hb => h b (by simp [hb]))]

/-- The representative a client with at least one local device submits. -/
def firstReplicaD (m : LocalMesh) : Nat := (firstReplica m).getD 0

theorem localReplicas_nonempty {m : LocalMesh} (h : m.localDevices ≠ []) :
    (localReplicas m).Nonempty :=
  Finset.card_pos.mp (Nat.pos_of_ne_zero (localReplicas_card_ne_zero h))

theorem firstReplica_eq_some {m : LocalMesh} (h : m.localDevices ≠ []) :
    firstReplica m = some (firstReplicaD m) := by
  unfold firstReplicaD firstReplica
  rw [dif_pos (localReplicas_nonempty h)]
  rfl

theorem runRepresentatives_eq_map {run : Run}
    (h1 : ∀ m ∈ run, m.localDevices ≠ []) :
    runRepresentatives run = run.map firstReplicaD := by
  unfold runRepresentatives
  rw [filterMap_eq_map_of_isSome firstReplica 0 run
    (fun m hm => by rw [firstReplica_eq_some (h1 m hm)]; rfl)]
  rfl

theorem getD_map_of_lt {α β : Type} (f : α → β) (l : List α) {i : Nat}
    (hi : i < l.length) (d₁ : β) (d₂ : α) :
    (l.map f).getD i d₁ = f (l.getD i d₂) := by
  rw [List.getD_eq_getElem _ _ (by simpa using hi), List.getElem_map,
    List.getD_eq_getElem _ _ hi]

theorem getPipelineParams_eq_some (run : Run)
    (h1 : ∀ m ∈ run, m.localDevices ≠ []) (i : Nat) (hi : i < run.length) :
    getPipelineParams run i =
      some ⟨(uniqueAcrossClients (runRepresentatives run)).indexOf
              (firstReplicaD (run.getD i default)),
            (uniqueAcrossClients (runRepresentatives run)).length,
            (localReplicas (run.getD i default)).card⟩ := by
  unfold getPipelineParams
  have hm : run[i]? = some (run.getD i default) := by
    rw [List.getD_eq_getElem _ _ hi]
    exact List.getElem?_eq_getElem hi
  have hmem : run.getD i default ∈ run := by
    rw [List.getD_eq_getElem _ _ hi]; exact List.getElem_mem hi
  rw [hm]
  simp only [Option.pure_def, Option.bind_eq_bind, Option.some_bind]
  rw [firstReplica_eq_some (h1 _ hmem)]
  simp only [Option.some_bind]

/-! ## Lemmas about `shard_data` -/

theorem shardData_eq_some {α : Type} {m : LocalMesh} {xs : List α}
    (hR : (localReplicas m).card ≠ 0) (hdiv : (localReplicas m).card ∣ xs.length) :
    shardData m xs = some (m.localDevices.map (fun dev =>
      (shardSlices m xs).getD ((sortedReplicas m).indexOf dev.batch) [])) := by
  unfold shardData
  rw [if_pos ⟨hR, hdiv⟩]

theorem shardSlices_length {α : Type} (m : LocalMesh) (xs : List α) :
    (shardSlices m xs).length = (localReplicas m).card :=
  tfSplit_length _ _ _

theorem map_indexOf_self {L : List Nat} (h : L.Nodup) :
    L.map (fun r => L.indexOf r) = List.range L.length := by
  apply List.ext_getElem (by simp)
  intro k h1 h2
  simp only [List.getElem_map, List.getElem_range]
  exact List.indexOf_getElem h k (by simpa using h1)

theorem map_indexOf_getD {α : Type} {L : List Nat} (h : L.Nodup)
    (ys : List (List α)) (hl : ys.length = L.length) :
    L.map (fun r => ys.getD (L.indexOf r) []) = ys := by
  apply List.ext_getElem (by simp [hl])
  intro k h1 h2
  simp only [List.getElem_map]
  rw [List.indexOf_getElem h k (by simpa using h1)]
  exact List.getD_eq_getElem _ _ h2

theorem find_zip_map {α : Type} (g : Nat → List α) (r : Nat) :
    ∀ (l : List DeviceLocation), (∃ d ∈ l, d.batch = r) →
      ((l.zip (l.map (fun dev => g dev.batch))).find?
          (fun p => p.1.batch == r)).map Prod.snd = some (g r) := by
  intro l
  induction l with
  | nil => rintro ⟨d, hd, _⟩; simp at hd
  | cons a l ih =>
    rintro ⟨d, hd, hdr⟩
    have hz : (a :: l).zip ((a :: l).map (fun dev => g dev.batch))
        = (a, g a.batch) :: l.zip (l.map (fun dev => g dev.batch)) := rfl
    rw [hz]
    by_cases hab : a.batch = r
    · rw [List.find?_cons_of_pos _ (by simpa using hab)]
      simp [hab]
    · rw [List.find?_cons_of_neg _ (by simpa using hab)]
      apply ih
      rcases List.mem_cons.mp hd with rfl | hd2
      · exact absurd hdr hab
      · exact ⟨d, hd2, hdr⟩

theorem componentForReplica_map {α : Type} (m : LocalMesh) (g : Nat → List α)
    {r : Nat} (hr : r ∈ localReplicas m) :
    componentForReplica m (m.localDevices.map (fun dev => g dev.batch)) r = g r := by
  unfold componentForReplica
  rw [find_zip_map g r m.localDevices (mem_localReplicas.mp hr)]
  rfl

theorem reassemble_shard {α : Type} (m : LocalMesh) (xs : List α)
    (hdiv : (localReplicas m).card ∣ xs.length) :
    reassemble m (m.localDevices.map (fun dev =>
      (shardSlices m xs).getD ((sortedReplicas m).indexOf dev.batch) [])) = xs := by
  unfold reassemble
  have hlen : (shardSlices m xs).length = (sortedReplicas m).length := by
    rw [sortedReplicas_length]; exact shardSlices_length m xs
  have hcongr : (sortedReplicas m).map (componentForReplica m
        (m.localDevices.map (fun dev =>
          (shardSlices m xs).getD ((sortedReplicas m).indexOf dev.batch) [])))
      = (sortedReplicas m).map (fun r =>
          (shardSlices m xs).getD ((sortedReplicas m).indexOf r) []) := by
    apply List.map_congr_left
    intro r hr
    exact componentForReplica_map m
      (fun c => (shardSlices m xs).getD ((sortedReplicas m).indexOf c) [])
      (mem_sortedReplicas.mp hr)
  rw [hcongr, map_indexOf_getD (sortedReplicas_nodup m) _ hlen]
  exact tfSplit_flatten _ _ _ (Nat.mul_div_cancel' hdiv).symm

theorem getD_map_dev {α : Type} (f : DeviceLocation → List α)
    (l : List DeviceLocation) {i : Nat} (hi : i < l.length) :
    (l.map f).getD i [] = f (l.getD i default) := by
  rw [List.getD_eq_getElem _ _ (by simpa using hi), List.getElem_map,
    List.getD_eq_getElem _ _ hi]

/-! ## Lemmas about the training loop -/

theorem epochLoop_eq (f : Nat → ℚ) :
    ∀ (n d : Nat), epochLoop f d n = (∑ s ∈ Finset.range n, f (d + s), d + n) := by
  intro n
  induction n with
  | zero => intro d; simp [epochLoop]
  | succ n ih =>
    intro d
    simp only [epochLoop, ih (d + 1)]
    refine Prod.ext ?_ (by omega)
    show f d + ∑ s ∈ Finset.range n, f (d + 1 + s) = ∑ s ∈ Finset.range (n + 1), f (d + s)
    rw [Finset.sum_range_succ']
    have harg : ∀ s, d + 1 + s = d + (s + 1) := by omega
    simp only [harg, Nat.add_zero]
    exact add_comm _ _

theorem trainModel_eq (clientId : Nat) (f : Nat → ℚ) (spe : Nat) :
    ∀ (ne : Nat), trainModel clientId f spe ne =
      ⟨(List.range ne).map
          (fun e => (∑ s ∈ Finset.range spe, f (e * spe + s)) / (spe : ℚ)),
        (if clientId = 0 then
          (List.range ne).map
            (fun e => (e, (∑ s ∈ Finset.range spe, f (e * spe + s)) / (spe : ℚ)))
        else []),
        ne * spe⟩ := by
  intro ne
  induction ne with
  | zero => simp [trainModel]
  | succ ne ih =>
    have hstep : trainModel clientId f spe (ne + 1) =
        (fun st e =>
          let step := epochLoop f st.stepsRun spe
          let trainLoss := step.1 / (spe : ℚ)
          (⟨st.losses ++ [trainLoss],
            st.reports ++ rprint clientId (e, trainLoss),
            step.2⟩ : TrainResult)) (trainModel clientId f spe ne) ne := by
      unfold trainModel
      rw [List.range_succ, List.foldl_append]
      rfl
    rw [hstep, ih]
    simp only [epochLoop_eq]
    by_cases hc : clientId = 0 <;>
      simp [hc, rprint, List.range_succ, Nat.succ_mul]

/-! ## The singleton state lemma -/

theorem clientMeshAfterCalls_eq (n : Nat) :
    ∀ (k : Nat), clientMeshAfterCalls n k =
      (if k = 0 then none else some (createClientMesh n), min k 1) := by
  intro k
  induction k with
  | zero => simp [clientMeshAfterCalls]
  | succ k ih =>
    by_cases hk : k = 0
    · simp [clientMeshAfterCalls, ih, hk, clientMeshOnCall]
    · simp only [clientMeshAfterCalls, ih, hk, clientMeshOnCall, if_neg hk]
      refine Prod.ext rfl ?_
      simp
      omega

/-! ## Concrete fixtures used by the witnesses (the spec's two-client
scenario: client A owns batch coordinates 0 and 1, client B owns 2 and 3). -/

/-- Client A of the spec scenario: four local devices on batch coordinates
0 and 1. -/
def meshA : LocalMesh := ⟨4, [⟨0, 0⟩, ⟨0, 1⟩, ⟨1, 0⟩, ⟨1, 1⟩]⟩

/-- Client B of the spec scenario: four local devices on batch coordinates
2 and 3. -/
def meshB : LocalMesh := ⟨4, [⟨2, 0⟩, ⟨2, 1⟩, ⟨3, 0⟩, ⟨3, 1⟩]⟩

/-- The two-client run of the spec scenario. -/
def runAB : Run := [meshA, meshB]

/-! ## Claims -/

/-- C1: for every client and every batch tensor whose axis-0 size is evenly
divisible by the number `R` of distinct batch-dimension coordinates among the
client's local devices, `shard_data` produces per-device components such that
concatenating the distinct-replica components in sorted-coordinate order
exactly reconstructs the original input tensor, and every two local devices
sharing the same batch-dimension coordinate hold an identical component. -/
theorem claim_C1_shard_roundtrip {α : Type} (m : LocalMesh) (xs : List α)
    (hdev : m.localDevices ≠ []) (hdiv : (localReplicas m).card ∣ xs.length) :
    ∃ comps, shardData m xs = some comps ∧
      reassemble m comps = xs ∧
      comps.length = m.localDevices.length ∧
      ∀ i j, i < m.localDevices.length → j < m.localDevices.length →
        (m.localDevices.getD i default).batch
            = (m.localDevices.getD j default).batch →
        comps.getD i [] = comps.getD j [] := by
  refine ⟨_, shardData_eq_some (localReplicas_card_ne_zero hdev) hdiv,
    reassemble_shard m xs hdiv, by simp, ?_⟩
  intro i j hi hj hb
  rw [getD_map_dev _ _ hi, getD_map_dev _ _ hj, hb]

/-- Witness for C1: client A of the spec scenario sharding a 4-row tensor. -/
theorem claim_C1_witness :
    (meshA.localDevices ≠ [] ∧
      (localReplicas meshA).card ∣ ([10, 20, 30, 40] : List Nat).length) ∧
    ∃ comps, shardData meshA ([10, 20, 30, 40] : List Nat) = some comps ∧
      reassemble meshA comps = [10, 20, 30, 40] ∧
      comps.length = meshA.localDevices.length ∧
      ∀ i j, i < meshA.localDevices.length → j < meshA.localDevices.length →
        (meshA.localDevices.getD i default).batch
            = (meshA.localDevices.getD j default).batch →
        comps.getD i [] = comps.getD j [] :=
  ⟨⟨by decide, by decide⟩,
    claim_C1_shard_roundtrip meshA _ (by decide) (by decide)⟩

/-- C5: `shard_data` fails with a fatal shape error whenever the input's
axis-0 size is not evenly divisible by the number `R` of distinct
batch-dimension coordinates among the client's local devices, and when it is
divisible it splits the tensor into exactly `R` equal contiguous slices along
axis 0 (slice `k` holds rows `k*(n/R) .. (k+1)*(n/R)`). -/
theorem claim_C5_split_divisibility {α : Type} (m : LocalMesh) (xs : List α)
    (hdev : m.localDevices ≠ []) :
    (¬ (localReplicas m).card ∣ xs.length → shardData m xs = none) ∧
    ((localReplicas m).card ∣ xs.length →
      shardData m xs = some (m.localDevices.map (fun dev =>
        (shardSlices m xs).getD ((sortedReplicas m).indexOf dev.batch) [])) ∧
      (shardSlices m xs).length = (localReplicas m).card ∧
      ∀ k, k < (localReplicas m).card →
        (shardSlices m xs).getD k []
            = (xs.drop (k * (xs.length / (localReplicas m).card))).take
                (xs.length / (localReplicas m).card) ∧
        ((shardSlices m xs).getD k []).length
            = xs.length / (localReplicas m).card) := by
  constructor
  · intro hnd
    unfold shardData
    rw [if_neg (by tauto)]
  · intro hdiv
    refine ⟨shardData_eq_some (localReplicas_card_ne_zero hdev) hdiv,
      shardSlices_length m xs, ?_⟩
    intro k hk
    exact ⟨tfSplit_getD _ _ _ _ hk,
      tfSplit_getD_length _ _ _ _ hk (le_of_eq (Nat.mul_div_cancel' hdiv))⟩

/-- Witness for C5: client A of the spec scenario; a 4-row tensor splits, and
(by the first conjunct, instantiated inside the theorem) a tensor of
indivisible size is rejected. -/
theorem claim_C5_witness :
    meshA.localDevices ≠ [] ∧
    ((¬ (localReplicas meshA).card ∣ ([1, 2, 3] : List Nat).length →
        shardData meshA ([1, 2, 3] : List Nat) = none) ∧
      ((localReplicas meshA).card ∣ ([1, 2, 3] : List Nat).length →
        shardData meshA ([1, 2, 3] : List Nat)
            = some (meshA.localDevices.map (fun dev =>
                (shardSlices meshA ([1, 2, 3] : List Nat)).getD
                  ((sortedReplicas meshA).indexOf dev.batch) [])) ∧
        (shardSlices meshA ([1, 2, 3] : List Nat)).length
            = (localReplicas meshA).card ∧
        ∀ k, k < (localReplicas meshA).card →
          (shardSlices meshA ([1, 2, 3] : List Nat)).getD k []
              = (([1, 2, 3] : List Nat).drop
                  (k * (([1, 2, 3] : List Nat).length / (localReplicas meshA).card))).take
                  (([1, 2, 3] : List Nat).length / (localReplicas meshA).card) ∧
          ((shardSlices meshA ([1, 2, 3] : List Nat)).getD k []).length
              = ([1, 2, 3] : List Nat).length / (localReplicas meshA).card)) :=
  ⟨by decide, claim_C5_split_divisibility meshA ([1, 2, 3] : List Nat) (by decide)⟩

/-- C2: whenever every client owns at least one device and the clients'
representatives (the minimum local batch coordinate of each client) are
pairwise distinct, the partition ids computed by `get_pipeline_params` across
all clients form exactly the set `0 .. partition_count - 1` with no
collisions, and `num_input_pipelines` is the same value at every client of
the run. -/
theorem claim_C2_distinct_partitions (run : Run)
    (h1 : ∀ m ∈ run, m.localDevices ≠ [])
    (h2 : (runRepresentatives run).Nodup) :
    ∃ ids : List Nat,
      ids.length = run.length ∧
      (∀ i, i < run.length →
        (getPipelineParams run i).map PipelineParams.inputPipelineId
          = some (ids.getD i 0)) ∧
      ids.Perm (List.range run.length) ∧
      ∀ i j, i < run.length → j < run.length →
        (getPipelineParams run i).map PipelineParams.numInputPipelines
          = (getPipelineParams run j).map PipelineParams.numInputPipelines := by
  refine ⟨(run.map firstReplicaD).map
      (fun r => (uniqueAcrossClients (runRepresentatives run)).indexOf r),
    by simp, ?_, ?_, ?_⟩
  · intro i hi
    rw [getPipelineParams_eq_some run h1 i hi,
      getD_map_of_lt (fun r => (uniqueAcrossClients (runRepresentatives run)).indexOf r)
        (run.map firstReplicaD) (by simpa using hi) 0 0,
      getD_map_of_lt firstReplicaD run hi 0 default]
    rfl
  · have hreps : runRepresentatives run = run.map firstReplicaD :=
      runRepresentatives_eq_map h1
    have hperm : (uniqueAcrossClients (runRepresentatives run)).Perm
        (runRepresentatives run) := uniqueAcrossClients_perm_of_nodup h2
    have hLnodup : (uniqueAcrossClients (runRepresentatives run)).Nodup :=
      uniqueAcrossClients_nodup _
    have hlen : (uniqueAcrossClients (runRepresentatives run)).length = run.length := by
      rw [hperm.length_eq, hreps, List.length_map]
    have h3 : (uniqueAcrossClients (runRepresentatives run)).map
          (fun r => (uniqueAcrossClients (runRepresentatives run)).indexOf r)
        = List.range run.length := by
      rw [map_indexOf_self hLnodup, hlen]
    rw [← hreps]
    exact h3 ▸ (hperm.symm.map _)
  · intro i j hi hj
    rw [getPipelineParams_eq_some run h1 i hi,
      getPipelineParams_eq_some run h1 j hj]
    rfl

/-- Witness for C2: the spec's two-client scenario (representatives 0 and 2,
ids 0 and 1, partition count 2 at both clients). -/
theorem claim_C2_witness :
    ((∀ m ∈ runAB, m.localDevices ≠ []) ∧ (runRepresentatives runAB).Nodup) ∧
    ∃ ids : List Nat,
      ids.length = runAB.length ∧
      (∀ i, i < runAB.length →
        (getPipelineParams runAB i).map PipelineParams.inputPipelineId
          = some (ids.getD i 0)) ∧
      ids.Perm (List.range runAB.length) ∧
      ∀ i j, i < runAB.length → j < runAB.length →
        (getPipelineParams runAB i).map PipelineParams.numInputPipelines
          = (getPipelineParams runAB j).map PipelineParams.numInputPipelines :=
  ⟨⟨by decide, by decide⟩,
    claim_C2_distinct_partitions runAB (by decide) (by decide)⟩

/-- C3: `get_pipeline_params` computes exactly what spec §4.3 prescribes —
the representative is the minimum distinct local batch coordinate,
`input_pipeline_id` the index of the representative in the sorted set
returned by consensus over all clients' representatives,
`num_input_pipelines` the size of that set, and `num_local_replicas_in_sync`
the number of distinct batch coordinates the client owns. -/
theorem claim_C3_matches_spec (run : Run) (i : Nat) :
    getPipelineParams run i = specDerivePartition run i := by
  unfold getPipelineParams specDerivePartition runRepresentatives
  rw [show specRepresentative = firstReplica from rfl,
    show specBatchReplicas = localReplicas from rfl,
    uniqueAcrossClients_eq_specAllDistinctValues]

/-- C4: in a consensus round with submissions `xs` (one per client), every
client receives the identical result: the sorted, duplicate-free list of
exactly the values submitted by the clients. -/
theorem claim_C4_consensus_round (xs : List Nat) (i : Nat) (hi : i < xs.length) :
    uniqueAcrossClientsAt xs i = some (uniqueAcrossClients xs) ∧
    List.Sorted (· ≤ ·) (uniqueAcrossClients xs) ∧
    (uniqueAcrossClients xs).Nodup ∧
    ∀ v, v ∈ uniqueAcrossClients xs ↔ v ∈ xs := by
  refine ⟨?_, uniqueAcrossClients_sorted xs, uniqueAcrossClients_nodup xs,
    fun v => mem_uniqueAcrossClients⟩
  unfold uniqueAcrossClientsAt clientView
  rw [if_pos hi]
  rfl

/-- Witness for C4: three clients submitting 2, 0, 2; client 1's view. -/
theorem claim_C4_witness :
    1 < ([2, 0, 2] : List Nat).length ∧
    (uniqueAcrossClientsAt [2, 0, 2] 1 = some (uniqueAcrossClients [2, 0, 2]) ∧
      List.Sorted (· ≤ ·) (uniqueAcrossClients [2, 0, 2]) ∧
      (uniqueAcrossClients [2, 0, 2]).Nodup ∧
      ∀ v, v ∈ uniqueAcrossClients [2, 0, 2] ↔ v ∈ ([2, 0, 2] : List Nat)) :=
  ⟨by decide, claim_C4_consensus_round [2, 0, 2] 1 (by decide)⟩

/-- C7: `train_model` executes exactly `num_epochs * steps_per_epoch`
training steps; per epoch it accumulates the per-step losses, the reported
value is the accumulated loss divided by `steps_per_epoch`, the report is
emitted exactly once per epoch and only by client 0, and the returned list
holds the per-epoch averages in epoch order. -/
theorem claim_C7_training_loop (clientId spe ne : Nat) (f : Nat → ℚ) :
    (trainModel clientId f spe ne).stepsRun = ne * spe ∧
    (trainModel clientId f spe ne).losses =
      (List.range ne).map
        (fun e => (∑ s ∈ Finset.range spe, f (e * spe + s)) / (spe : ℚ)) ∧
    (trainModel clientId f spe ne).reports =
      (if clientId = 0 then
        (List.range ne).map
          (fun e => (e, (∑ s ∈ Finset.range spe, f (e * spe + s)) / (spe : ℚ)))
      else []) := by
  rw [trainModel_eq]
  exact ⟨rfl, rfl, rfl⟩

/-- C8: restoring a checkpoint from the token returned by save, into a mesh
of identical topology, yields exactly the parameter values held immediately
before the save (modelled from the spec's persistence-service contract). -/
theorem claim_C8_checkpoint_roundtrip {α : Type} (store : CheckpointStore α)
    (meshTopology : List (String × Nat)) (params : α) (path : String) :
    checkpointRestore (checkpointSave store meshTopology params path).2
        meshTopology (checkpointSave store meshTopology params path).1
      = some params := by
  unfold checkpointSave checkpointRestore
  rw [List.find?_cons_of_pos _ (by simp)]
  simp

/-- C9: the auxiliary client mesh is built at most once per process —
after `k` calls to `unique_across_clients` the global holds the mesh built on
the first call (`none` before any call), the number of constructions is
`min k 1`, and a call that finds an existing mesh returns it unchanged,
neither mutating nor replacing it. -/
theorem claim_C9_singleton (n : Nat) :
    (∀ k, clientMeshAfterCalls n k
        = (if k = 0 then none else some (createClientMesh n), min k 1)) ∧
    ∀ m : ClientMeshSpec, clientMeshOnCall n (some m) = (m, some m, false) :=
  ⟨clientMeshAfterCalls_eq n, fun _ => rfl⟩

/-- C10: for a client of the 4-wide batch mesh whose local replica count `R`
divides 4, the labels batch drawn in the training loop has
`batch_size / 4 * R` rows, `shard_data` splits it into components of
`batch_size / 4` rows each, and batch-sharded packing yields global axis-0
extent `batch_size` — the `assert d_labels.shape[0] == batch_size` in
`train_model` never fails. -/
theorem claim_C10_labels_assert (m : LocalMesh) (labels : List Nat) (k : Nat)
    (hmesh : m.batchDimSize = 4) (hdev : m.localDevices ≠ [])
    (_hlab : labels.length = batchSize)
    (_hRdvd : (localReplicas m).card ∣ 4) :
    (repeatBatch labels (clientLocalBatchSize m (localReplicas m).card) k).length
        = clientLocalBatchSize m (localReplicas m).card ∧
    ∃ comps,
      shardData m
          (repeatBatch labels (clientLocalBatchSize m (localReplicas m).card) k)
        = some comps ∧
      (∀ c ∈ comps, c.length = batchSize / m.batchDimSize) ∧
      packedGlobalRows m comps = batchSize := by
  have hR : (localReplicas m).card ≠ 0 := localReplicas_card_ne_zero hdev
  have hBlen : (repeatBatch labels
        (clientLocalBatchSize m (localReplicas m).card) k).length
      = clientLocalBatchSize m (localReplicas m).card := by
    simp [repeatBatch]
  have hBval : clientLocalBatchSize m (localReplicas m).card
      = 8 * (localReplicas m).card := by
    unfold clientLocalBatchSize
    rw [hmesh]
    norm_num [batchSize]
  have hdiv : (localReplicas m).card ∣ (repeatBatch labels
      (clientLocalBatchSize m (localReplicas m).card) k).length := by
    rw [hBlen, hBval]
    exact dvd_mul_left _ _
  have hq : (repeatBatch labels
        (clientLocalBatchSize m (localReplicas m).card) k).length
      / (localReplicas m).card = 8 := by
    rw [hBlen, hBval]
    exact Nat.mul_div_cancel 8 (Nat.pos_of_ne_zero hR)
  have hcomp : ∀ dev ∈ m.localDevices,
      ((shardSlices m (repeatBatch labels
          (clientLocalBatchSize m (localReplicas m).card) k)).getD
        ((sortedReplicas m).indexOf dev.batch) []).length = 8 := by
    intro dev hdev2
    have hmem : dev.batch ∈ sortedReplicas m :=
      mem_sortedReplicas.mpr (mem_localReplicas.mpr ⟨dev, hdev2, rfl⟩)
    have hidx : (sortedReplicas m).indexOf dev.batch < (localReplicas m).card := by
      rw [← sortedReplicas_length]
      exact List.indexOf_lt_length.mpr hmem
    rw [← hq]
    exact tfSplit_getD_length _ _ _ _ hidx
      (le_of_eq (Nat.mul_div_cancel' hdiv))
  have hdiv4 : batchSize / m.batchDimSize = 8 := by rw [hmesh]; decide
  refine ⟨hBlen, _, shardData_eq_some hR hdiv, ?_, ?_⟩
  · intro c hc
    rcases List.mem_map.mp hc with ⟨dev, hdev2, rfl⟩
    rw [hcomp dev hdev2, hdiv4]
  · obtain ⟨d, ds, hds⟩ := List.exists_cons_of_ne_nil hdev
    unfold packedGlobalRows
    rw [hmesh, hds, List.map_cons, List.headD_cons,
      hcomp d (by rw [hds]; exact List.mem_cons_self d ds)]
    decide

/-- Witness for C10: client A of the spec scenario with an all-zero 32-row
label array. -/
theorem claim_C10_witness :
    (meshA.batchDimSize = 4 ∧ meshA.localDevices ≠ [] ∧
      (List.replicate 32 0 : List Nat).length = batchSize ∧
      (localReplicas meshA).card ∣ 4) ∧
    ((repeatBatch (List.replicate 32 0)
        (clientLocalBatchSize meshA (localReplicas meshA).card) 0).length
          = clientLocalBatchSize meshA (localReplicas meshA).card ∧
      ∃ comps,
        shardData meshA (repeatBatch (List.replicate 32 0)
            (clientLocalBatchSize meshA (localReplicas meshA).card) 0)
          = some comps ∧
        (∀ c ∈ comps, c.length = batchSize / meshA.batchDimSize) ∧
        packedGlobalRows meshA comps = batchSize) :=
  ⟨⟨by decide, by decide, by decide, by decide⟩,
    claim_C10_labels_assert meshA (List.replicate 32 0) 0
      (by decide) (by decide) (by decide) (by decide)⟩

end DTensorBert
